import Mathlib

/-!
Verification of the `midi_oxide` Standard MIDI File decoder (src/main.rs).

The decoder is embedded shallowly: the `File` byte source becomes a pure
`List Nat` of bytes together with an explicit position (a `Nat`), every
fallible read returns `Except MidiError (result × new position)`, and the
source's loops (`read_variable_length`, the sys-ex scan, the per-track
event loop) become structural recursion on an explicit fuel argument that
the wrappers instantiate with more iterations than the loop can perform
(each iteration consumes at least one byte of the stream, so
`remaining bytes + 1` resp. `declared track length + 1` always suffices;
the fuel-exhausted arm is unreachable from the wrappers).
Machine integers are modelled as `Nat` with explicit `% 2 ^ 32` where the
source's `u32` arithmetic can overflow.
-/

/-- MIDI meta events (enum `MetaEvent`).  The source stores the text-like
payloads as `String::from_utf8_lossy(&data).into_owned()`; we keep the raw
payload bytes, which determine that string. -/
inductive MetaEvent where
  | SequenceNumber (value : Nat)
  | Text (data : List Nat)
  | CopyrightNotice (data : List Nat)
  | TrackName (data : List Nat)
  | InstrumentName (data : List Nat)
  | Lyrics (data : List Nat)
  | Marker (data : List Nat)
  | CuePoint (data : List Nat)
  | EndOfTrack
  | SetTempo (tempo : Nat)
  | TimeSignature (numerator denominator clocks_per_metronome thirty_seconds_per_quarter : Nat)
  | KeySignature (key : Int) (scale : Nat)
  | SequencerSpecific (data : List Nat)
deriving DecidableEq, Repr

/-- Different types of MIDI messages (enum `MidiMessage`). -/
inductive MidiMessage where
  | NoteOn (channel note velocity : Nat)
  | NoteOff (channel note velocity : Nat)
  | PolyphonicKeyPressure (channel note pressure : Nat)
  | ControlChange (channel controller value : Nat)
  | ProgramChange (channel program : Nat)
  | ChannelPressure (channel pressure : Nat)
  | PitchBendChange (channel : Nat) (value : Int)
  | Meta (e : MetaEvent)
  | SysEx (data : List Nat)
deriving DecidableEq, Repr

/-- A MIDI event with timing information (struct `MidiEvent`). -/
structure MidiEvent where
  delta_time : Nat
  message : MidiMessage
deriving DecidableEq, Repr

/-- A single MIDI track containing events (struct `MidiTrack`). -/
structure MidiTrack where
  events : List MidiEvent
deriving DecidableEq, Repr

/-- MIDI file header information (struct `MidiHeader`). -/
structure MidiHeader where
  format : Nat
  num_tracks : Nat
  time_division : Nat
deriving DecidableEq, Repr

/-- Represents a complete MIDI file (struct `MidiFile`). -/
structure MidiFile where
  header : MidiHeader
  tracks : List MidiTrack
deriving DecidableEq, Repr

/-- Error type (enum `MidiError`).  `IoError` stands for the `Io` variant;
the only I/O failure a pure byte list can exhibit is running out of bytes,
so the wrapped `io::Error` payload is dropped. -/
inductive MidiError where
  | IoError
  | Format (msg : String)
  | Unsupported (msg : String)
deriving DecidableEq, Repr

/-- `file.read_u8()`: one byte at the current position, advancing by one. -/
def read_u8 (data : List Nat) (pos : Nat) : Except MidiError (Nat × Nat) :=
  match data[pos]? with
  | some b => .ok (b, pos + 1)
  | none => .error .IoError

/-- `file.read_exact(&mut buf)` for a buffer of `n` bytes: the next `n`
bytes, advancing by `n`; fails when fewer than `n` bytes remain. -/
def read_exact (data : List Nat) (pos n : Nat) : Except MidiError (List Nat × Nat) :=
  if pos + n ≤ data.length then .ok (((data.drop pos).take n), pos + n)
  else .error .IoError

/-- `file.read_u16::<BigEndian>()`. -/
def read_u16_be (data : List Nat) (pos : Nat) : Except MidiError (Nat × Nat) :=
  match read_u8 data pos with
  | .error e => .error e
  | .ok (b0, p0) =>
    match read_u8 data p0 with
    | .error e => .error e
    | .ok (b1, p1) => .ok ((b0 <<< 8) ||| b1, p1)

/-- `file.read_u32::<BigEndian>()`. -/
def read_u32_be (data : List Nat) (pos : Nat) : Except MidiError (Nat × Nat) :=
  match read_u8 data pos with
  | .error e => .error e
  | .ok (b0, p0) =>
    match read_u8 data p0 with
    | .error e => .error e
    | .ok (b1, p1) =>
      match read_u8 data p1 with
      | .error e => .error e
      | .ok (b2, p2) =>
        match read_u8 data p2 with
        | .error e => .error e
        | .ok (b3, p3) => .ok ((b0 <<< 24) ||| (b1 <<< 16) ||| (b2 <<< 8) ||| b3, p3)

/-- Loop body of `MidiFile::read_variable_length`.  `value` is the `u32`
accumulator: the source computes `value = (value << 7) | (byte & 0x7F)` in
`u32`, so the shift truncates to 32 bits (the subsequent `|` adds only low
bits).  The fuel argument only bounds the iteration count; the wrapper
passes one more than the number of readable bytes, and every iteration
consumes a byte, so the fuel-exhausted arm is unreachable from the wrapper. -/
def read_variable_length_go (data : List Nat) :
    Nat → Nat → Nat → Except MidiError (Nat × Nat)
  | 0, _, _ => .error .IoError
  | fuel + 1, pos, value =>
    match read_u8 data pos with
    | .error e => .error e
    | .ok (byte, pos') =>
      let value' := ((value <<< 7) % 2 ^ 32) ||| (byte &&& 0x7F)
      if byte &&& 0x80 == 0 then .ok (value', pos')
      else read_variable_length_go data fuel pos' value'

/-- `MidiFile::read_variable_length`: read a variable-length quantity. -/
def read_variable_length (data : List Nat) (pos : Nat) : Except MidiError (Nat × Nat) :=
  read_variable_length_go data (data.length + 1 - pos) pos 0

/-- Loop of the `0xF0` (System Exclusive) arm of `MidiFile::parse_message`:
push bytes until a `0xF7` terminator is read.  Fuel as in
`read_variable_length_go`. -/
def sysex_go (data : List Nat) :
    Nat → Nat → List Nat → Except MidiError (List Nat × Nat)
  | 0, _, _ => .error .IoError
  | fuel + 1, pos, acc =>
    match read_u8 data pos with
    | .error e => .error e
    | .ok (byte, pos') =>
      if byte == 0xF7 then .ok (acc, pos')
      else sysex_go data fuel pos' (acc ++ [byte])

/-- The `match meta_type` body of the `0xFF` arm of `MidiFile::parse_message`,
after the length-prefixed payload has been read.  `pos` is the stream
position after the payload; the arms only pass it through.  Payload indexing
(`data[i]`) is written with `List.getD _ _ 0`; it is always in bounds because
`read_exact` returned exactly `length` bytes and each indexing arm first
checks `length`.  In `1 << data[1]` the source shifts in `u8`, which masks
the shift amount to its low three bits in a build without overflow checks
(with overflow checks it panics when `data[1] ≥ 8`); we model the masking
semantics, `% 8` on the exponent. -/
def parse_meta_body (meta_type length : Nat) (payload : List Nat) (pos : Nat) :
    Except MidiError (MidiMessage × Nat) :=
  match meta_type with
  | 0x00 =>
    if length ≠ 2 then .error (.Format "Invalid sequence number length")
    else .ok (.Meta (.SequenceNumber ((payload.getD 0 0 <<< 8) ||| payload.getD 1 0)), pos)
  | 0x01 => .ok (.Meta (.Text payload), pos)
  | 0x02 => .ok (.Meta (.CopyrightNotice payload), pos)
  | 0x03 => .ok (.Meta (.TrackName payload), pos)
  | 0x04 => .ok (.Meta (.InstrumentName payload), pos)
  | 0x05 => .ok (.Meta (.Lyrics payload), pos)
  | 0x06 => .ok (.Meta (.Marker payload), pos)
  | 0x07 => .ok (.Meta (.CuePoint payload), pos)
  | 0x2F =>
    if length ≠ 0 then .error (.Format "End of track event with non-zero length")
    else .ok (.Meta .EndOfTrack, pos)
  | 0x51 =>
    if length ≠ 3 then .error (.Format "Invalid tempo event length")
    else .ok (.Meta (.SetTempo ((payload.getD 0 0 <<< 16) ||| (payload.getD 1 0 <<< 8) |||
        payload.getD 2 0)), pos)
  | 0x58 =>
    if length ≠ 4 then .error (.Format "Invalid time signature length")
    else .ok (.Meta (.TimeSignature (payload.getD 0 0) (1 <<< (payload.getD 1 0 % 8))
        (payload.getD 2 0) (payload.getD 3 0)), pos)
  | 0x59 =>
    if length ≠ 2 then .error (.Format "Invalid key signature length")
    else .ok (.Meta (.KeySignature
        (if payload.getD 0 0 < 128 then (payload.getD 0 0 : Int)
         else (payload.getD 0 0 : Int) - 256)
        (payload.getD 1 0)), pos)
  | 0x7F => .ok (.Meta (.SequencerSpecific payload), pos)
  | _ => .error (.Unsupported ("Unsupported meta event type: " ++ toString meta_type))
    -- the source formats the offending meta type in decimal, as here

/-- `MidiFile::parse_message`: parse a MIDI message body given its status
byte, consuming exactly the body bytes.  The source's match over byte
ranges becomes a chain of range tests.  The final `Unsupported` message in
the source formats the status byte in hexadecimal; the offending value is
carried here in decimal. -/
def parse_message (data : List Nat) (pos : Nat) (status : Nat) :
    Except MidiError (MidiMessage × Nat) :=
  if 0x80 ≤ status ∧ status ≤ 0x8F then
    -- Note Off
    match read_u8 data pos with
    | .error e => .error e
    | .ok (note, p1) =>
      match read_u8 data p1 with
      | .error e => .error e
      | .ok (velocity, p2) => .ok (.NoteOff (status &&& 0x0F) note velocity, p2)
  else if 0x90 ≤ status ∧ status ≤ 0x9F then
    -- Note On; with velocity 0 it is equivalent to note-off
    match read_u8 data pos with
    | .error e => .error e
    | .ok (note, p1) =>
      match read_u8 data p1 with
      | .error e => .error e
      | .ok (velocity, p2) =>
        if velocity = 0 then .ok (.NoteOff (status &&& 0x0F) note velocity, p2)
        else .ok (.NoteOn (status &&& 0x0F) note velocity, p2)
  else if 0xA0 ≤ status ∧ status ≤ 0xAF then
    match read_u8 data pos with
    | .error e => .error e
    | .ok (note, p1) =>
      match read_u8 data p1 with
      | .error e => .error e
      | .ok (pressure, p2) => .ok (.PolyphonicKeyPressure (status &&& 0x0F) note pressure, p2)
  else if 0xB0 ≤ status ∧ status ≤ 0xBF then
    match read_u8 data pos with
    | .error e => .error e
    | .ok (controller, p1) =>
      match read_u8 data p1 with
      | .error e => .error e
      | .ok (value, p2) => .ok (.ControlChange (status &&& 0x0F) controller value, p2)
  else if 0xC0 ≤ status ∧ status ≤ 0xCF then
    match read_u8 data pos with
    | .error e => .error e
    | .ok (program, p1) => .ok (.ProgramChange (status &&& 0x0F) program, p1)
  else if 0xD0 ≤ status ∧ status ≤ 0xDF then
    match read_u8 data pos with
    | .error e => .error e
    | .ok (pressure, p1) => .ok (.ChannelPressure (status &&& 0x0F) pressure, p1)
  else if 0xE0 ≤ status ∧ status ≤ 0xEF then
    match read_u8 data pos with
    | .error e => .error e
    | .ok (lsb, p1) =>
      match read_u8 data p1 with
      | .error e => .error e
      | .ok (msb, p2) =>
        -- ((msb << 7) | lsb) as i16 - 8192, centring the value at 0
        .ok (.PitchBendChange (status &&& 0x0F) ((((msb <<< 7) ||| lsb : Nat) : Int) - 8192), p2)
  else if status = 0xF0 then
    match sysex_go data (data.length + 1 - pos) pos [] with
    | .error e => .error e
    | .ok (dat, p1) => .ok (.SysEx dat, p1)
  else if status = 0xFF then
    match read_u8 data pos with
    | .error e => .error e
    | .ok (meta_type, p1) =>
      match read_variable_length data p1 with
      | .error e => .error e
      | .ok (length, p2) =>
        match read_exact data p2 length with
        | .error e => .error e
        | .ok (payload, p3) => parse_meta_body meta_type length payload p3
  else .error (.Unsupported ("Unsupported MIDI message type: " ++ toString status))

/-- `MidiFile::parse_event`: read the delta time, resolve the status byte
against the running status (rewinding one byte when a data byte was peeked),
parse the message.  The mutable `running_status` is threaded explicitly:
the updated value is returned alongside the event and new position. -/
def parse_event (data : List Nat) (pos : Nat) (running_status : Option Nat) :
    Except MidiError (MidiEvent × Nat × Option Nat) :=
  match read_variable_length data pos with
  | .error e => .error e
  | .ok (delta_time, p0) =>
    match read_u8 data p0 with
    | .error e => .error e
    | .ok (b, p1) =>
      if b < 0x80 then
        match running_status with
        | some rs =>
          -- put back the byte just read (it is actually data): seek -1
          match parse_message data (p1 - 1) rs with
          | .error e => .error e
          | .ok (message, p2) => .ok (⟨delta_time, message⟩, p2, running_status)
        | none => .error (.Format "Unexpected data byte without running status")
      else
        -- update running status (except for System messages)
        let rs' := if b < 0xF0 then some b else running_status
        match parse_message data p1 b with
        | .error e => .error e
        | .ok (message, p2) => .ok (⟨delta_time, message⟩, p2, rs')

/-- `MidiFile::validate_chunk_header`: read four bytes and compare with the
expected chunk tag.  The source interpolates the expected and found tags
into the error message; the model uses a fixed message. -/
def validate_chunk_header (data : List Nat) (pos : Nat) (expected : List Nat) :
    Except MidiError (Unit × Nat) :=
  match read_exact data pos 4 with
  | .error e => .error e
  | .ok (chunk_type, p1) =>
    if chunk_type ≠ expected then .error (.Format "Expected chunk type mismatch")
    else .ok ((), p1)

/-- The event loop of `MidiFile::parse_track`: while the position is before
`bound = track_start + track_length`, parse an event, append it, and stop
immediately if it was an EndOfTrack meta event.  Each successful
`parse_event` consumes at least one byte (its delta time alone does), so
`track_length + 1` units of fuel make the fuel-exhausted arm unreachable
from `parse_track`. -/
def parse_track_go (data : List Nat) (bound : Nat) :
    Nat → List MidiEvent → Option Nat → Nat → Except MidiError (List MidiEvent × Nat)
  | 0, _, _, _ => .error .IoError
  | fuel + 1, events, running_status, pos =>
    if pos < bound then
      match parse_event data pos running_status with
      | .error e => .error e
      | .ok (event, pos', rs') =>
        if event.message = .Meta .EndOfTrack then .ok (events ++ [event], pos')
        else parse_track_go data bound fuel (events ++ [event]) rs' pos'
    else .ok (events, pos)

/-- `MidiFile::parse_track`: validate the `MTrk` tag, read the declared
length, run the event loop, then force the position to
`track_start + track_length` when it does not already match. -/
def parse_track (data : List Nat) (pos : Nat) : Except MidiError (MidiTrack × Nat) :=
  match validate_chunk_header data pos [0x4D, 0x54, 0x72, 0x6B] with
  | .error e => .error e
  | .ok (_, p0) =>
    match read_u32_be data p0 with
    | .error e => .error e
    | .ok (track_length, p1) =>
      let track_start := p1
      match parse_track_go data (track_start + track_length) (track_length + 1) [] none
          track_start with
      | .error e => .error e
      | .ok (events, p2) =>
        let expected_pos := track_start + track_length
        .ok (⟨events⟩, if p2 ≠ expected_pos then expected_pos else p2)

/-- The `for _ in 0..num_tracks` loop of `MidiFile::open`: parse `n` track
chunks in order, propagating the first failure. -/
def parseTracks (data : List Nat) : Nat → Nat → Except MidiError (List MidiTrack × Nat)
  | 0, pos => .ok ([], pos)
  | n + 1, pos =>
    match parse_track data pos with
    | .error e => .error e
    | .ok (t, p') =>
      match parseTracks data n p' with
      | .error e => .error e
      | .ok (ts, p'') => .ok (t :: ts, p'')

/-- `MidiFile::open`, from the point where the byte source is available:
validate the `MThd` tag, check the header length is 6, read the three
header fields, reject `format > 2`, then parse exactly `num_tracks`
tracks.  (`open` is a Lean keyword, hence the name `openFile`.) -/
def MidiFile.openFile (data : List Nat) : Except MidiError MidiFile :=
  match validate_chunk_header data 0 [0x4D, 0x54, 0x68, 0x64] with
  | .error e => .error e
  | .ok (_, p0) =>
    match read_u32_be data p0 with
    | .error e => .error e
    | .ok (header_length, p1) =>
      if header_length ≠ 6 then
        .error (.Format ("Invalid header length: " ++ toString header_length))
      else
        match read_u16_be data p1 with
        | .error e => .error e
        | .ok (format, p2) =>
          match read_u16_be data p2 with
          | .error e => .error e
          | .ok (num_tracks, p3) =>
            match read_u16_be data p3 with
            | .error e => .error e
            | .ok (time_division, _p4) =>
              if format > 2 then
                .error (.Format ("Unsupported MIDI format: " ++ toString format))
              else
                match parseTracks data num_tracks _p4 with
                | .error e => .error e
                | .ok (tracks, _) => .ok ⟨⟨format, num_tracks, time_division⟩, tracks⟩

/-! ## Reference values for VLQ claims -/

/-- Big-endian 7-bits-per-byte accumulation of a byte list onto an
accumulator: the reference value of a VLQ byte sequence (spec §4.1). -/
def vlqAcc : Nat → List Nat → Nat
  | v, [] => v
  | v, b :: l => vlqAcc (v * 128 + b % 128) l

/-- The reference value of a complete VLQ byte sequence. -/
def vlqVal (l : List Nat) : Nat := vlqAcc 0 l

/-- A complete VLQ byte sequence: non-empty, every byte except the last has
its high bit set, the last has it clear. -/
def isCompleteVLQ : List Nat → Bool
  | [] => false
  | [b] => b &&& 0x80 == 0
  | b :: c :: l => (b &&& 0x80 != 0) && isCompleteVLQ (c :: l)

/-- Big-endian 4-byte encoding of a 32-bit value. -/
def be32 (n : Nat) : List Nat :=
  [n / 2 ^ 24 % 256, n / 2 ^ 16 % 256, n / 2 ^ 8 % 256, n % 256]

/-! ## Basic facts about the byte reads -/

theorem getElem_append_shift (pre suf : List Nat) (i : Nat) :
    (pre ++ suf)[pre.length + i]? = suf[i]? := by
  rw [List.getElem?_append_right (by omega)]
  congr 1
  omega

theorem read_u8_eq {data : List Nat} {pos b : Nat} (h : data[pos]? = some b) :
    read_u8 data pos = .ok (b, pos + 1) := by
  simp [read_u8, h]

theorem read_u8_shift (pre suf : List Nat) (k : Nat) :
    read_u8 (pre ++ suf) (pre.length + k) =
      (read_u8 suf k).map fun r => (r.1, pre.length + r.2) := by
  unfold read_u8
  rw [getElem_append_shift]
  cases suf[k]? with
  | none => rfl
  | some b => simp [Except.map, Nat.add_assoc]

theorem read_exact_shift (pre suf : List Nat) (k n : Nat) :
    read_exact (pre ++ suf) (pre.length + k) n =
      (read_exact suf k n).map fun r => (r.1, pre.length + r.2) := by
  unfold read_exact
  have hc : pre.length + k + n ≤ (pre ++ suf).length ↔ k + n ≤ suf.length := by
    simp; omega
  have hd : (pre ++ suf).drop (pre.length + k) = suf.drop k := by
    rw [← List.drop_drop, List.drop_left]
  by_cases h : k + n ≤ suf.length
  · rw [if_pos (hc.mpr h), if_pos h, hd]
    simp [Except.map, Nat.add_assoc]
  · rw [if_neg (fun hh => h (hc.mp hh)), if_neg h]
    rfl

theorem read_variable_length_go_shift (pre suf : List Nat) (fuel k v : Nat) :
    read_variable_length_go (pre ++ suf) fuel (pre.length + k) v =
      (read_variable_length_go suf fuel k v).map fun r => (r.1, pre.length + r.2) := by
  induction fuel generalizing k v with
  | zero => rfl
  | succ fuel ih =>
    unfold read_variable_length_go
    rw [read_u8_shift]
    cases h : read_u8 suf k with
    | error e => rfl
    | ok r =>
      obtain ⟨b, p'⟩ := r
      simp only [Except.map]
      by_cases hb : b &&& 0x80 == 0
      · simp [hb]
      · simp only [hb, if_neg, Bool.false_eq_true, if_false]
        exact ih p' _

theorem read_variable_length_shift (pre suf : List Nat) (k : Nat) :
    read_variable_length (pre ++ suf) (pre.length + k) =
      (read_variable_length suf k).map fun r => (r.1, pre.length + r.2) := by
  unfold read_variable_length
  have : (pre ++ suf).length + 1 - (pre.length + k) = suf.length + 1 - k := by
    simp; omega
  rw [this, read_variable_length_go_shift]

theorem sysex_go_shift (pre suf : List Nat) (fuel k : Nat) (acc : List Nat) :
    sysex_go (pre ++ suf) fuel (pre.length + k) acc =
      (sysex_go suf fuel k acc).map fun r => (r.1, pre.length + r.2) := by
  induction fuel generalizing k acc with
  | zero => rfl
  | succ fuel ih =>
    unfold sysex_go
    rw [read_u8_shift]
    cases h : read_u8 suf k with
    | error e => rfl
    | ok r =>
      obtain ⟨b, p'⟩ := r
      simp only [Except.map]
      by_cases hb : b == 0xF7
      · simp [hb]
      · simp only [hb, Bool.false_eq_true, if_false]
        exact ih p' _

theorem parse_meta_body_shift (mt len : Nat) (payload : List Nat) (pre : List Nat) (k : Nat) :
    parse_meta_body mt len payload (pre.length + k) =
      (parse_meta_body mt len payload k).map fun r => (r.1, pre.length + r.2) := by
  unfold parse_meta_body
  split <;> (try split) <;> simp [Except.map]

theorem getElem_append_self (pre suf : List Nat) : (pre ++ suf)[pre.length]? = suf[0]? := by
  simpa using getElem_append_shift pre suf 0

theorem parse_message_shift (pre suf : List Nat) (k st : Nat) :
    parse_message (pre ++ suf) (pre.length + k) st =
      (parse_message suf k st).map fun r => (r.1, pre.length + r.2) := by
  unfold parse_message
  by_cases h1 : 0x80 ≤ st ∧ st ≤ 0x8F
  · -- Note Off
    simp only [h1, and_self, if_true]
    rw [read_u8_shift]
    cases c1 : read_u8 suf k with
    | error e => rfl
    | ok r1 =>
      obtain ⟨b1, p1⟩ := r1
      simp only [Except.map]
      rw [read_u8_shift]
      cases c2 : read_u8 suf p1 with
      | error e => rfl
      | ok r2 => obtain ⟨b2, p2⟩ := r2; simp [Except.map]
  · simp only [h1, if_false]
    by_cases h2 : 0x90 ≤ st ∧ st ≤ 0x9F
    · -- Note On
      simp only [h2, and_self, if_true]
      rw [read_u8_shift]
      cases c1 : read_u8 suf k with
      | error e => rfl
      | ok r1 =>
        obtain ⟨b1, p1⟩ := r1
        simp only [Except.map]
        rw [read_u8_shift]
        cases c2 : read_u8 suf p1 with
        | error e => rfl
        | ok r2 =>
          obtain ⟨b2, p2⟩ := r2
          by_cases hv : b2 = 0 <;> simp [hv, Except.map]
    · simp only [h2, if_false]
      by_cases h3 : 0xA0 ≤ st ∧ st ≤ 0xAF
      · -- Polyphonic Key Pressure
        simp only [h3, and_self, if_true]
        rw [read_u8_shift]
        cases c1 : read_u8 suf k with
        | error e => rfl
        | ok r1 =>
          obtain ⟨b1, p1⟩ := r1
          simp only [Except.map]
          rw [read_u8_shift]
          cases c2 : read_u8 suf p1 with
          | error e => rfl
          | ok r2 => obtain ⟨b2, p2⟩ := r2; simp [Except.map]
      · simp only [h3, if_false]
        by_cases h4 : 0xB0 ≤ st ∧ st ≤ 0xBF
        · -- Control Change
          simp only [h4, and_self, if_true]
          rw [read_u8_shift]
          cases c1 : read_u8 suf k with
          | error e => rfl
          | ok r1 =>
            obtain ⟨b1, p1⟩ := r1
            simp only [Except.map]
            rw [read_u8_shift]
            cases c2 : read_u8 suf p1 with
            | error e => rfl
            | ok r2 => obtain ⟨b2, p2⟩ := r2; simp [Except.map]
        · simp only [h4, if_false]
          by_cases h5 : 0xC0 ≤ st ∧ st ≤ 0xCF
          · -- Program Change
            simp only [h5, and_self, if_true]
            rw [read_u8_shift]
            cases c1 : read_u8 suf k with
            | error e => rfl
            | ok r1 => obtain ⟨b1, p1⟩ := r1; simp [Except.map]
          · simp only [h5, if_false]
            by_cases h6 : 0xD0 ≤ st ∧ st ≤ 0xDF
            · -- Channel Pressure
              simp only [h6, and_self, if_true]
              rw [read_u8_shift]
              cases c1 : read_u8 suf k with
              | error e => rfl
              | ok r1 => obtain ⟨b1, p1⟩ := r1; simp [Except.map]
            · simp only [h6, if_false]
              by_cases h7 : 0xE0 ≤ st ∧ st ≤ 0xEF
              · -- Pitch Bend
                simp only [h7, and_self, if_true]
                rw [read_u8_shift]
                cases c1 : read_u8 suf k with
                | error e => rfl
                | ok r1 =>
                  obtain ⟨b1, p1⟩ := r1
                  simp only [Except.map]
                  rw [read_u8_shift]
                  cases c2 : read_u8 suf p1 with
                  | error e => rfl
                  | ok r2 => obtain ⟨b2, p2⟩ := r2; simp [Except.map]
              · simp only [h7, if_false]
                by_cases h8 : st = 0xF0
                · -- System Exclusive
                  simp only [h8, if_true]
                  have hf : (pre ++ suf).length + 1 - (pre.length + k) =
                      suf.length + 1 - k := by simp; omega
                  rw [hf, sysex_go_shift]
                  cases c1 : sysex_go suf (suf.length + 1 - k) k [] with
                  | error e => rfl
                  | ok r1 => obtain ⟨d, p1⟩ := r1; simp [Except.map]
                · simp only [h8, if_false]
                  by_cases h9 : st = 0xFF
                  · -- Meta Event
                    simp only [h9, if_true]
                    rw [read_u8_shift]
                    cases c1 : read_u8 suf k with
                    | error e => rfl
                    | ok r1 =>
                      obtain ⟨mt, p1⟩ := r1
                      simp only [Except.map]
                      rw [read_variable_length_shift]
                      cases c2 : read_variable_length suf p1 with
                      | error e => rfl
                      | ok r2 =>
                        obtain ⟨len, p2⟩ := r2
                        simp only [Except.map]
                        rw [read_exact_shift]
                        cases c3 : read_exact suf p2 len with
                        | error e => rfl
                        | ok r3 =>
                          obtain ⟨payload, p3⟩ := r3
                          simp only [Except.map]
                          exact parse_meta_body_shift mt len payload pre p3
                  · simp only [h9, if_false]
                    rfl

/-! ## The VLQ decoder meets its reference value -/

theorem and_0x7F_eq_mod (b : Nat) : b &&& 0x7F = b % 128 := by
  have h := Nat.and_pow_two_sub_one_eq_mod b 7
  norm_num at h
  exact h

theorem vlq_step (v b : Nat) :
    ((v <<< 7) % 2 ^ 32) ||| (b &&& 0x7F) = (v * 128 + b % 128) % 2 ^ 32 := by
  have h1 : v <<< 7 = v * 128 := by rw [Nat.shiftLeft_eq]
  have h3 : v * 128 % 2 ^ 32 = 2 ^ 7 * (v % 2 ^ 25) := by
    rw [show v * 128 = 2 ^ 7 * v by ring, show (2 : Nat) ^ 32 = 2 ^ 7 * 2 ^ 25 by norm_num,
      Nat.mul_mod_mul_left]
  have h4 : 2 ^ 7 * (v % 2 ^ 25) ||| b % 128 = 2 ^ 7 * (v % 2 ^ 25) + b % 128 :=
    (Nat.mul_add_lt_is_or (by omega) _).symm
  rw [h1, and_0x7F_eq_mod, h3, h4]
  have hv : v % 2 ^ 25 = v % 33554432 := by norm_num
  rw [hv]
  omega

theorem vlqAcc_mod_congr (l : List Nat) :
    ∀ x y : Nat, x % 2 ^ 32 = y % 2 ^ 32 → vlqAcc x l % 2 ^ 32 = vlqAcc y l % 2 ^ 32 := by
  induction l with
  | nil => intro x y h; exact h
  | cons b l ih =>
    intro x y h
    exact ih _ _ (by omega)

theorem rvl_go_spec (l : List Nat) :
    ∀ (pre post : List Nat) (fuel v : Nat), isCompleteVLQ l = true → l.length ≤ fuel →
      v < 2 ^ 32 →
      read_variable_length_go (pre ++ (l ++ post)) fuel pre.length v =
        .ok (vlqAcc v l % 2 ^ 32, pre.length + l.length) := by
  induction l with
  | nil => simp [isCompleteVLQ]
  | cons b l ih =>
    intro pre post fuel v hvlq hfuel hv
    cases fuel with
    | zero => simp at hfuel
    | succ fuel =>
      have hb : (pre ++ (b :: l ++ post))[pre.length]? = some b := by
        rw [getElem_append_self]; simp
      unfold read_variable_length_go
      rw [read_u8_eq hb]
      simp only [vlq_step]
      cases l with
      | nil =>
        have hend : (b &&& 0x80 == 0) = true := by
          simpa [isCompleteVLQ] using hvlq
        simp [hend, vlqAcc]
      | cons c l' =>
        have hcont : (b &&& 0x80 == 0) = false ∧ isCompleteVLQ (c :: l') = true := by
          simpa [isCompleteVLQ, Bool.and_eq_true] using hvlq
        rw [hcont.1]
        simp only [Bool.false_eq_true, if_false]
        have hshape : pre ++ (b :: (c :: l') ++ post) = (pre ++ [b]) ++ ((c :: l') ++ post) := by
          simp
        have hpos : pre.length + 1 = (pre ++ [b]).length := by simp
        rw [hshape, hpos, ih (pre ++ [b]) post fuel _ hcont.2 (by simp at hfuel ⊢; omega)
          (Nat.mod_lt _ (by norm_num))]
        have hval : vlqAcc ((v * 128 + b % 128) % 2 ^ 32) (c :: l') % 2 ^ 32 =
            vlqAcc v (b :: c :: l') % 2 ^ 32 := by
          have := vlqAcc_mod_congr (c :: l') ((v * 128 + b % 128) % 2 ^ 32)
            (v * 128 + b % 128) (by omega)
          simpa [vlqAcc] using this
        rw [hval]
        simp
        omega

theorem rvl_spec (l pre post : List Nat) (h : isCompleteVLQ l = true) :
    read_variable_length (pre ++ l ++ post) pre.length =
      .ok (vlqVal l % 2 ^ 32, pre.length + l.length) := by
  unfold read_variable_length vlqVal
  have hlen : l.length ≤ (pre ++ l ++ post).length + 1 - pre.length := by simp; omega
  have h0 := rvl_go_spec l pre post ((pre ++ l ++ post).length + 1 - pre.length) 0 h hlen
    (by norm_num)
  simpa [List.append_assoc] using h0

theorem vlqAcc_lt (l : List Nat) : ∀ v : Nat, vlqAcc v l < (v + 1) * 128 ^ l.length := by
  induction l with
  | nil => intro v; simp [vlqAcc]
  | cons b l ih =>
    intro v
    have h1 := ih (v * 128 + b % 128)
    have h2 : (v * 128 + b % 128 + 1) * 128 ^ l.length ≤ (v + 1) * 128 ^ (l.length + 1) := by
      rw [pow_succ, show (v + 1) * (128 ^ l.length * 128) = ((v + 1) * 128) * 128 ^ l.length
        by ring]
      exact Nat.mul_le_mul_right _ (by omega)
    calc vlqAcc (v * 128 + b % 128) l < (v * 128 + b % 128 + 1) * 128 ^ l.length := h1
      _ ≤ (v + 1) * 128 ^ (l.length + 1) := h2

theorem and_0x80_eq_zero {b : Nat} (h : b < 0x80) : b &&& 0x80 = 0 := by
  have h7 : b.testBit 7 = false := Nat.testBit_lt_two_pow (by norm_num; omega)
  apply Nat.eq_of_testBit_eq
  intro i
  rw [Nat.testBit_and]
  rcases eq_or_ne i 7 with rfl | hi
  · simp [h7]
  · have h128 : (0x80 : Nat).testBit i = false := by
      rw [show (0x80 : Nat) = 2 ^ 7 by norm_num, Nat.testBit_two_pow]
      simp [hi.symm]
    simp [h128]

/-- C5: for every valid VLQ byte sequence of 1 to 4 bytes, the VLQ decoder
returns the big-endian accumulation of each byte's low 7 bits, stopping at
the first byte whose high bit is clear and consuming exactly the bytes of
the sequence; in particular [0x81, 0x00] decodes to 128, [0x00] to 0 and
[0xFF, 0x7F] to 16383. -/
theorem c5_vlq_reference :
    (∀ pre l post : List Nat, isCompleteVLQ l = true → l.length ≤ 4 →
      read_variable_length (pre ++ l ++ post) pre.length =
        .ok (vlqVal l, pre.length + l.length)) ∧
    read_variable_length [0x81, 0x00] 0 = .ok (128, 2) ∧
    read_variable_length [0x00] 0 = .ok (0, 1) ∧
    read_variable_length [0xFF, 0x7F] 0 = .ok (16383, 2) := by
  refine ⟨?_, rfl, rfl, rfl⟩
  intro pre l post h hlen
  have hval : vlqVal l < 2 ^ 32 := by
    have h1 := vlqAcc_lt l 0
    have h2 : 128 ^ l.length ≤ 128 ^ 4 := Nat.pow_le_pow_right (by norm_num) hlen
    have : vlqAcc 0 l < 128 ^ 4 := by
      calc vlqAcc 0 l < (0 + 1) * 128 ^ l.length := h1
        _ = 128 ^ l.length := by ring
        _ ≤ 128 ^ 4 := h2
    unfold vlqVal
    calc vlqAcc 0 l < 128 ^ 4 := this
      _ < 2 ^ 32 := by norm_num
  rw [rvl_spec l pre post h, Nat.mod_eq_of_lt hval]

theorem c5_witness :
    isCompleteVLQ [0x81, 0x00] = true ∧
    read_variable_length [0x81, 0x00] 0 = .ok (vlqVal [0x81, 0x00], 2) := by
  refine ⟨by decide, ?_⟩
  simpa using c5_vlq_reference.1 [] [0x81, 0x00] [] (by decide) (by decide)

/-- C9: the VLQ decoder caps the number of continuation bytes nowhere; on a
complete sequence of more than 4 bytes it still succeeds, consumes the whole
sequence, and returns the 7-bit big-endian accumulation reduced modulo
2 to the 32, the silent `u32` truncation of the shift. -/
theorem c9_vlq_truncation (pre l post : List Nat) (h : isCompleteVLQ l = true)
    (_hlong : 4 < l.length) :
    read_variable_length (pre ++ l ++ post) pre.length =
      .ok (vlqVal l % 2 ^ 32, pre.length + l.length) :=
  rvl_spec l pre post h

theorem c9_witness :
    isCompleteVLQ [0x81, 0x81, 0x81, 0x81, 0x81, 0x00] = true ∧
    4 < ([0x81, 0x81, 0x81, 0x81, 0x81, 0x00] : List Nat).length ∧
    read_variable_length [0x81, 0x81, 0x81, 0x81, 0x81, 0x00] 0 = .ok (270549120, 6) := by
  refine ⟨by decide, by decide, ?_⟩
  have h := c9_vlq_truncation [] [0x81, 0x81, 0x81, 0x81, 0x81, 0x00] [] (by decide) (by decide)
  simpa [vlqVal, vlqAcc] using h

/-- C4: an event whose first post-delta-time byte has the high bit clear
while no running status is active fails with the Format error about a data
byte without running status, and no message is produced. -/
theorem c4_no_running_status (pre dts : List Nat) (b : Nat) (rest : List Nat)
    (hdts : isCompleteVLQ dts = true) (hb : b < 0x80) :
    parse_event (pre ++ dts ++ b :: rest) pre.length none =
      .error (.Format "Unexpected data byte without running status") := by
  unfold parse_event
  rw [rvl_spec dts pre (b :: rest) hdts]
  have hr : read_u8 (pre ++ dts ++ b :: rest) (pre.length + dts.length) =
      .ok (b, pre.length + dts.length + 1) := by
    apply read_u8_eq
    rw [show pre ++ dts ++ b :: rest = (pre ++ dts) ++ (b :: rest) by simp]
    rw [show pre.length + dts.length = (pre ++ dts).length by simp]
    rw [getElem_append_self]
    simp
  simp only [hr]
  simp [hb]

theorem c4_witness :
    isCompleteVLQ [0x00] = true ∧ (5 : Nat) < 0x80 ∧
    parse_event [0x00, 5] 0 none =
      .error (.Format "Unexpected data byte without running status") := by
  refine ⟨by decide, by decide, ?_⟩
  simpa using c4_no_running_status [] [0x00] 5 [] (by decide) (by decide)

theorem parse_message_shift0 (pre suf : List Nat) (st : Nat) :
    parse_message (pre ++ suf) pre.length st =
      (parse_message suf 0 st).map fun r => (r.1, pre.length + r.2) := by
  simpa using parse_message_shift pre suf 0 st

/-- C2: for a status byte in 0x90 to 0x9F, velocity 0 decodes to NoteOff
with channel status &&& 0x0F, the same note and velocity 0, never NoteOn;
positive velocity decodes to NoteOn with those fields. -/
theorem c2_noteon_velocity_zero (pre post : List Nat) (st n : Nat)
    (hst : 0x90 ≤ st ∧ st ≤ 0x9F) :
    parse_message (pre ++ n :: 0 :: post) pre.length st =
      .ok (.NoteOff (st &&& 0x0F) n 0, pre.length + 2) ∧
    ∀ v : Nat, 0 < v →
      parse_message (pre ++ n :: v :: post) pre.length st =
        .ok (.NoteOn (st &&& 0x0F) n v, pre.length + 2) := by
  constructor
  · rw [parse_message_shift0]
    have h : parse_message (n :: 0 :: post) 0 st = .ok (.NoteOff (st &&& 0x0F) n 0, 2) := by
      unfold parse_message
      rw [if_neg (by omega), if_pos hst]
      simp [read_u8]
    rw [h]
    simp [Except.map]
  · intro v hv
    rw [parse_message_shift0]
    have h : parse_message (n :: v :: post) 0 st = .ok (.NoteOn (st &&& 0x0F) n v, 2) := by
      unfold parse_message
      rw [if_neg (by omega), if_pos hst]
      simp [read_u8, hv.ne']
    rw [h]
    simp [Except.map]

theorem c2_witness :
    parse_message [60, 0] 0 0x95 = .ok (.NoteOff (0x95 &&& 0x0F) 60 0, 2) ∧
    parse_message [60, 100] 0 0x95 = .ok (.NoteOn (0x95 &&& 0x0F) 60 100, 2) := by
  have h := c2_noteon_velocity_zero [] [] 0x95 60 (by decide)
  exact ⟨by simpa using h.1, by simpa using h.2 100 (by decide)⟩

theorem parse_message_meta (pre payload post : List Nat) (mt L : Nat)
    (hL : L < 0x80) (hlen : payload.length = L) :
    parse_message (pre ++ mt :: L :: (payload ++ post)) pre.length 0xFF =
      parse_meta_body mt L payload (pre.length + (2 + L)) := by
  rw [parse_message_shift0]
  have hvlq : isCompleteVLQ [L] = true := by
    simp [isCompleteVLQ, and_0x80_eq_zero hL]
  have hrvl : read_variable_length (mt :: L :: (payload ++ post)) 1 = .ok (L, 2) := by
    have h := rvl_spec [L] [mt] (payload ++ post) hvlq
    have hv : vlqVal [L] % 2 ^ 32 = L := by
      have : vlqVal [L] = L % 128 := by simp [vlqVal, vlqAcc]
      rw [this, Nat.mod_eq_of_lt (by omega)]
      omega
    rw [hv] at h
    simpa using h
  have hre : read_exact (mt :: L :: (payload ++ post)) 2 L = .ok (payload, 2 + L) := by
    unfold read_exact
    rw [if_pos (by simp; omega)]
    have : ((mt :: L :: (payload ++ post)).drop 2).take L = payload := by
      simp [List.take_left' hlen]
    rw [this]
  have hbody : parse_message (mt :: L :: (payload ++ post)) 0 0xFF =
      parse_meta_body mt L payload (2 + L) := by
    unfold parse_message
    norm_num
    rw [read_u8_eq (by simp : (mt :: L :: (payload ++ post))[0]? = some mt)]
    simp only [hrvl, hre]
  rw [hbody, parse_meta_body_shift]

/-- C7: every fixed-size meta-event type rejects a payload whose length is
not the required one with a Format error and produces no meta-event value:
SequenceNumber (0x00) requires 2, EndOfTrack (0x2F) requires 0, SetTempo
(0x51) requires 3, TimeSignature (0x58) requires 4 and KeySignature (0x59)
requires 2. -/
theorem c7_meta_length_mismatch :
    (∀ (pre payload post : List Nat) (L : Nat), L < 0x80 → payload.length = L → L ≠ 2 →
      parse_message (pre ++ 0x00 :: L :: (payload ++ post)) pre.length 0xFF =
        .error (.Format "Invalid sequence number length")) ∧
    (∀ (pre payload post : List Nat) (L : Nat), L < 0x80 → payload.length = L → L ≠ 0 →
      parse_message (pre ++ 0x2F :: L :: (payload ++ post)) pre.length 0xFF =
        .error (.Format "End of track event with non-zero length")) ∧
    (∀ (pre payload post : List Nat) (L : Nat), L < 0x80 → payload.length = L → L ≠ 3 →
      parse_message (pre ++ 0x51 :: L :: (payload ++ post)) pre.length 0xFF =
        .error (.Format "Invalid tempo event length")) ∧
    (∀ (pre payload post : List Nat) (L : Nat), L < 0x80 → payload.length = L → L ≠ 4 →
      parse_message (pre ++ 0x58 :: L :: (payload ++ post)) pre.length 0xFF =
        .error (.Format "Invalid time signature length")) ∧
    (∀ (pre payload post : List Nat) (L : Nat), L < 0x80 → payload.length = L → L ≠ 2 →
      parse_message (pre ++ 0x59 :: L :: (payload ++ post)) pre.length 0xFF =
        .error (.Format "Invalid key signature length")) := by
  refine ⟨?_, ?_, ?_, ?_, ?_⟩ <;>
    (intro pre payload post L hL hlen hne
     rw [parse_message_meta pre payload post _ L hL hlen]
     simp [parse_meta_body, hne])

theorem c7_witness :
    (2 : Nat) < 0x80 ∧ ([7, 161] : List Nat).length = 2 ∧ (2 : Nat) ≠ 3 ∧
    parse_message [0x51, 2, 7, 161] 0 0xFF = .error (.Format "Invalid tempo event length") := by
  refine ⟨by decide, by decide, by decide, ?_⟩
  have h := c7_meta_length_mismatch.2.2.1 [] [7, 161] [] 2 (by decide) (by decide) (by decide)
  simpa using h

/-- C6 (amended): a 0x58 time-signature meta event with a 4-byte payload
decodes to TimeSignature with numerator payload 0, clocks payload 2 and
thirty-seconds payload 3, and denominator 2 raised to payload 1 modulo 8:
the source computes `1 << payload[1]` in `u8`, whose shift wraps the
exponent, so the denominator is 2 to payload 1 only when payload 1 is at
most 7. -/
theorem c6_time_signature (pre post : List Nat) (n d c t : Nat) :
    parse_message (pre ++ 0x58 :: 4 :: ([n, d, c, t] ++ post)) pre.length 0xFF =
      .ok (.Meta (.TimeSignature n (2 ^ (d % 8)) c t), pre.length + 6) := by
  rw [parse_message_meta pre [n, d, c, t] post 0x58 4 (by norm_num) (by simp)]
  simp [parse_meta_body, Nat.shiftLeft_eq]

/-- C6 counterexample: with payload 1 equal to 8 the decoded denominator is
1, not 2 to the 8 (which a u8 field could not even hold). -/
theorem c6_counterexample :
    parse_message [0x58, 4, 4, 8, 24, 8] 0 0xFF =
      .ok (.Meta (.TimeSignature 4 1 24 8), 6) ∧ (1 : Nat) ≠ 2 ^ (8 : Nat) :=
  ⟨rfl, by decide⟩

/-- C1: with a channel voice status byte active as running status, an event
that omits the status byte (its first byte has the high bit clear) decodes
to exactly the same MidiEvent as the same event with the status byte
explicitly repeated, the running status stays that status in both cases,
and after the delta time the position advances by exactly the message body
length q (the peeked data byte is rewound and re-consumed by the message
decoder) versus q + 1 with the explicit status byte. -/
theorem c1_running_status (pre dts rest : List Nat) (st b q : Nat) (m : MidiMessage)
    (rs0 : Option Nat) (hdts : isCompleteVLQ dts = true)
    (hst1 : 0x80 ≤ st) (hst2 : st < 0xF0) (hb : b < 0x80)
    (hm : parse_message (b :: rest) 0 st = .ok (m, q)) :
    parse_event (pre ++ dts ++ b :: rest) pre.length (some st) =
      .ok (⟨vlqVal dts % 2 ^ 32, m⟩, pre.length + dts.length + q, some st) ∧
    parse_event (pre ++ dts ++ st :: b :: rest) pre.length rs0 =
      .ok (⟨vlqVal dts % 2 ^ 32, m⟩, pre.length + dts.length + (q + 1), some st) := by
  constructor
  · unfold parse_event
    rw [rvl_spec dts pre (b :: rest) hdts]
    have hr : read_u8 (pre ++ dts ++ b :: rest) (pre.length + dts.length) =
        .ok (b, pre.length + dts.length + 1) := by
      apply read_u8_eq
      rw [show pre ++ dts ++ b :: rest = (pre ++ dts) ++ (b :: rest) by simp]
      rw [show pre.length + dts.length = (pre ++ dts).length by simp]
      rw [getElem_append_self]
      simp
    simp only [hr]
    have hpm : parse_message (pre ++ dts ++ b :: rest) (pre.length + dts.length + 1 - 1) st =
        .ok (m, pre.length + dts.length + q) := by
      rw [show pre.length + dts.length + 1 - 1 = pre.length + dts.length by omega]
      rw [show pre ++ dts ++ b :: rest = (pre ++ dts) ++ (b :: rest) by simp]
      rw [show pre.length + dts.length = (pre ++ dts).length by simp]
      rw [parse_message_shift0, hm]
      simp [Except.map]
    simp only [hpm]
    simp [hb]
  · unfold parse_event
    rw [rvl_spec dts pre (st :: b :: rest) hdts]
    have hr : read_u8 (pre ++ dts ++ st :: b :: rest) (pre.length + dts.length) =
        .ok (st, pre.length + dts.length + 1) := by
      apply read_u8_eq
      rw [show pre ++ dts ++ st :: b :: rest = (pre ++ dts) ++ (st :: b :: rest) by simp]
      rw [show pre.length + dts.length = (pre ++ dts).length by simp]
      rw [getElem_append_self]
      simp
    simp only [hr]
    have hpm : parse_message (pre ++ dts ++ st :: b :: rest) (pre.length + dts.length + 1) st =
        .ok (m, pre.length + dts.length + (q + 1)) := by
      rw [show pre ++ dts ++ st :: b :: rest = (pre ++ dts ++ [st]) ++ (b :: rest) by simp]
      rw [show pre.length + dts.length + 1 = (pre ++ dts ++ [st]).length by
        simp only [List.length_append, List.length_cons, List.length_nil]]
      rw [parse_message_shift0, hm]
      simp [Except.map]
      omega
    simp only [hpm]
    have : ¬ st < 0x80 := by omega
    simp [this, hst2]

theorem c1_witness :
    isCompleteVLQ [0x00] = true ∧ (0x80 : Nat) ≤ 0x90 ∧ (0x90 : Nat) < 0xF0 ∧
    (60 : Nat) < 0x80 ∧
    parse_message [60, 100] 0 0x90 = .ok (.NoteOn 0 60 100, 2) ∧
    parse_event [0x00, 60, 100] 0 (some 0x90) =
      .ok (⟨0, .NoteOn 0 60 100⟩, 3, some 0x90) ∧
    parse_event [0x00, 0x90, 60, 100] 0 none =
      .ok (⟨0, .NoteOn 0 60 100⟩, 4, some 0x90) := by
  refine ⟨by decide, by decide, by decide, by decide, by rfl, ?_, ?_⟩ <;>
    · have h := c1_running_status [] [0x00] [100] 0x90 60 2 (.NoteOn 0 60 100) none
        (by decide) (by decide) (by decide) (by decide) (by rfl)
      first
        | simpa [vlqVal, vlqAcc] using h.1
        | simpa [vlqVal, vlqAcc] using h.2

theorem lor_eq_add_of (a b n : Nat) (ha : a % 2 ^ n = 0) (hb : b < 2 ^ n) :
    a ||| b = a + b := by
  rw [← Nat.mul_div_cancel' (Nat.dvd_of_mod_eq_zero ha)]
  exact (Nat.mul_add_lt_is_or hb _).symm

theorem be32_read (pre post : List Nat) (D : Nat) (hD : D < 2 ^ 32) :
    read_u32_be (pre ++ (be32 D ++ post)) pre.length = .ok (D, pre.length + 4) := by
  have h0 : read_u8 (pre ++ (be32 D ++ post)) pre.length =
      .ok (D / 2 ^ 24 % 256, pre.length + 1) :=
    read_u8_eq (by rw [getElem_append_self]; simp [be32])
  have h1 : read_u8 (pre ++ (be32 D ++ post)) (pre.length + 1) =
      .ok (D / 2 ^ 16 % 256, pre.length + 1 + 1) :=
    read_u8_eq (by rw [getElem_append_shift]; simp [be32])
  have h2 : read_u8 (pre ++ (be32 D ++ post)) (pre.length + 1 + 1) =
      .ok (D / 2 ^ 8 % 256, pre.length + 1 + 1 + 1) :=
    read_u8_eq (by rw [show pre.length + 1 + 1 = pre.length + 2 by omega,
      getElem_append_shift]; simp [be32])
  have h3 : read_u8 (pre ++ (be32 D ++ post)) (pre.length + 1 + 1 + 1) =
      .ok (D % 256, pre.length + 1 + 1 + 1 + 1) :=
    read_u8_eq (by rw [show pre.length + 1 + 1 + 1 = pre.length + 3 by omega,
      getElem_append_shift]; simp [be32])
  have hv : (D / 2 ^ 24 % 256) <<< 24 ||| (D / 2 ^ 16 % 256) <<< 16 |||
      (D / 2 ^ 8 % 256) <<< 8 ||| D % 256 = D := by
    rw [Nat.shiftLeft_eq, Nat.shiftLeft_eq, Nat.shiftLeft_eq]
    have e1 : D / 2 ^ 24 % 256 * 2 ^ 24 ||| D / 2 ^ 16 % 256 * 2 ^ 16 =
        D / 2 ^ 24 % 256 * 2 ^ 24 + D / 2 ^ 16 % 256 * 2 ^ 16 :=
      lor_eq_add_of (D / 2 ^ 24 % 256 * 2 ^ 24) (D / 2 ^ 16 % 256 * 2 ^ 16) 24
        (by omega) (by omega)
    rw [e1]
    have e2 : D / 2 ^ 24 % 256 * 2 ^ 24 + D / 2 ^ 16 % 256 * 2 ^ 16 |||
        D / 2 ^ 8 % 256 * 2 ^ 8 =
        D / 2 ^ 24 % 256 * 2 ^ 24 + D / 2 ^ 16 % 256 * 2 ^ 16 + D / 2 ^ 8 % 256 * 2 ^ 8 :=
      lor_eq_add_of _ (D / 2 ^ 8 % 256 * 2 ^ 8) 16 (by omega) (by omega)
    rw [e2]
    have e3 : D / 2 ^ 24 % 256 * 2 ^ 24 + D / 2 ^ 16 % 256 * 2 ^ 16 +
        D / 2 ^ 8 % 256 * 2 ^ 8 ||| D % 256 =
        D / 2 ^ 24 % 256 * 2 ^ 24 + D / 2 ^ 16 % 256 * 2 ^ 16 +
        D / 2 ^ 8 % 256 * 2 ^ 8 + D % 256 :=
      lor_eq_add_of _ (D % 256) 8 (by omega) (by omega)
    rw [e3]
    omega
  unfold read_u32_be
  simp only [h0, h1, h2, h3, hv]

theorem parse_event_noteon (pre rest : List Nat) (n v : Nat) (rs : Option Nat) :
    parse_event (pre ++ 0x00 :: 0x90 :: n :: v :: rest) pre.length rs =
      .ok (⟨0, if v = 0 then .NoteOff 0 n v else .NoteOn 0 n v⟩,
        pre.length + 4, some 0x90) := by
  unfold parse_event
  have hrvl : read_variable_length (pre ++ 0x00 :: 0x90 :: n :: v :: rest) pre.length =
      .ok (0, pre.length + 1) := by
    have h := rvl_spec [0x00] pre (0x90 :: n :: v :: rest) (by decide)
    simpa using h
  rw [hrvl]
  have hr : read_u8 (pre ++ 0x00 :: 0x90 :: n :: v :: rest) (pre.length + 1) =
      .ok (0x90, pre.length + 1 + 1) :=
    read_u8_eq (by rw [getElem_append_shift]; simp)
  simp only [hr]
  have hpm : parse_message (pre ++ 0x00 :: 0x90 :: n :: v :: rest) (pre.length + 1 + 1) 0x90 =
      .ok (if v = 0 then .NoteOff 0 n v else .NoteOn 0 n v, pre.length + 4) := by
    have hinner : parse_message (n :: v :: rest) 0 0x90 =
        .ok (if v = 0 then MidiMessage.NoteOff 0 n v else .NoteOn 0 n v, 2) := by
      by_cases hv : v = 0 <;>
        (unfold parse_message
         rw [if_neg (by decide), if_pos (by decide)]
         simp [read_u8, hv]
         decide)
    rw [show pre ++ 0x00 :: 0x90 :: n :: v :: rest =
        (pre ++ [0x00, 0x90]) ++ (n :: v :: rest) by simp]
    rw [show pre.length + 1 + 1 = (pre ++ [0x00, 0x90]).length by simp]
    rw [parse_message_shift0, hinner]
    simp [Except.map]
  simp only [hpm]
  norm_num

theorem parse_event_eot (pre rest : List Nat) (rs : Option Nat) :
    parse_event (pre ++ 0x00 :: 0xFF :: 0x2F :: 0x00 :: rest) pre.length rs =
      .ok (⟨0, .Meta .EndOfTrack⟩, pre.length + 4, rs) := by
  unfold parse_event
  have hrvl : read_variable_length (pre ++ 0x00 :: 0xFF :: 0x2F :: 0x00 :: rest) pre.length =
      .ok (0, pre.length + 1) := by
    have h := rvl_spec [0x00] pre (0xFF :: 0x2F :: 0x00 :: rest) (by decide)
    simpa using h
  rw [hrvl]
  have hr : read_u8 (pre ++ 0x00 :: 0xFF :: 0x2F :: 0x00 :: rest) (pre.length + 1) =
      .ok (0xFF, pre.length + 1 + 1) :=
    read_u8_eq (by rw [getElem_append_shift]; simp)
  simp only [hr]
  have hpm : parse_message (pre ++ 0x00 :: 0xFF :: 0x2F :: 0x00 :: rest)
      (pre.length + 1 + 1) 0xFF = .ok (.Meta .EndOfTrack, pre.length + 4) := by
    have h := parse_message_meta (pre ++ [0x00, 0xFF]) [] rest 0x2F 0 (by norm_num) (by simp)
    simp only [List.nil_append] at h
    rw [show pre ++ 0x00 :: 0xFF :: 0x2F :: 0x00 :: rest =
        (pre ++ [0x00, 0xFF]) ++ (0x2F :: 0x00 :: rest) by simp]
    rw [show pre.length + 1 + 1 = (pre ++ [0x00, 0xFF]).length by simp]
    rw [h]
    simp [parse_meta_body]
  simp only [hpm]
  norm_num

theorem parse_track_go_step (data : List Nat) (bound fuel : Nat) (events : List MidiEvent)
    (rs : Option Nat) (pos : Nat) (hfuel : 0 < fuel) :
    parse_track_go data bound fuel events rs pos =
      if pos < bound then
        match parse_event data pos rs with
        | .error e => .error e
        | .ok (event, pos', rs') =>
          if event.message = .Meta .EndOfTrack then .ok (events ++ [event], pos')
          else parse_track_go data bound (fuel - 1) (events ++ [event]) rs' pos'
      else .ok (events, pos) := by
  cases fuel with
  | zero => omega
  | succ f =>
    simp only [parse_track_go, Nat.add_sub_cancel]

/-- C10: track decoding does not require an EndOfTrack event: a declared
length of 0 yields an empty events list (whatever bytes follow), and a
track whose declared length is exhausted by a single channel-voice event
before any EndOfTrack is returned successfully with that event last, which
is not EndOfTrack. -/
theorem c10_no_eot_required :
    (∀ post : List Nat,
      parse_track (0x4D :: 0x54 :: 0x72 :: 0x6B :: 0x00 :: 0x00 :: 0x00 :: 0x00 :: post) 0 =
        .ok (⟨[]⟩, 8)) ∧
    (∀ (n v : Nat) (post : List Nat),
      parse_track (0x4D :: 0x54 :: 0x72 :: 0x6B :: 0x00 :: 0x00 :: 0x00 :: 0x04 ::
          0x00 :: 0x90 :: n :: v :: post) 0 =
        .ok (⟨[⟨0, if v = 0 then .NoteOff 0 n v else .NoteOn 0 n v⟩]⟩, 12)) ∧
    (∀ n v : Nat,
      (if v = 0 then MidiMessage.NoteOff 0 n v else .NoteOn 0 n v) ≠ .Meta .EndOfTrack) := by
  refine ⟨?_, ?_, ?_⟩
  · intro post
    unfold parse_track
    have hvch : validate_chunk_header
        (0x4D :: 0x54 :: 0x72 :: 0x6B :: 0x00 :: 0x00 :: 0x00 :: 0x00 :: post) 0
        [0x4D, 0x54, 0x72, 0x6B] = .ok ((), 4) := by
      unfold validate_chunk_header read_exact
      rw [if_pos (by simp only [List.length_cons]; omega)]
      simp
    simp only [hvch]
    have hr32 : read_u32_be
        (0x4D :: 0x54 :: 0x72 :: 0x6B :: 0x00 :: 0x00 :: 0x00 :: 0x00 :: post) 4 =
        .ok (0, 8) := by
      unfold read_u32_be
      simp [read_u8]
    simp only [hr32]
    rw [parse_track_go_step _ _ _ _ _ _ (by omega)]
    rw [if_neg (by omega)]
    simp
  · intro n v post
    unfold parse_track
    have hvch : validate_chunk_header
        (0x4D :: 0x54 :: 0x72 :: 0x6B :: 0x00 :: 0x00 :: 0x00 :: 0x04 ::
          0x00 :: 0x90 :: n :: v :: post) 0 [0x4D, 0x54, 0x72, 0x6B] = .ok ((), 4) := by
      unfold validate_chunk_header read_exact
      rw [if_pos (by simp only [List.length_cons]; omega)]
      simp
    simp only [hvch]
    have hr32 : read_u32_be
        (0x4D :: 0x54 :: 0x72 :: 0x6B :: 0x00 :: 0x00 :: 0x00 :: 0x04 ::
          0x00 :: 0x90 :: n :: v :: post) 4 = .ok (4, 8) := by
      unfold read_u32_be
      simp [read_u8]
    simp only [hr32]
    rw [parse_track_go_step _ _ _ _ _ _ (by omega)]
    rw [if_pos (by omega)]
    have hev := parse_event_noteon [0x4D, 0x54, 0x72, 0x6B, 0x00, 0x00, 0x00, 0x04] post n v none
    simp only [List.cons_append, List.nil_append] at hev
    rw [show ([0x4D, 0x54, 0x72, 0x6B, 0x00, 0x00, 0x00, 0x04] : List Nat).length = 8
      from rfl] at hev
    simp only [hev]
    rw [if_neg (by split <;> simp)]
    rw [parse_track_go_step _ _ _ _ _ _ (by omega)]
    rw [if_neg (by omega)]
    simp
  · intro n v
    by_cases hv : v = 0 <;> simp [hv]

/-- C3: a track chunk whose declared length exceeds the bytes consumed up
to and including an EndOfTrack meta event stops decoding at the first
EndOfTrack (the trailing declared bytes are never decoded, whatever they
contain), and the final stream position is forced to exactly
start offset plus declared length; the mismatch is not an error. -/
theorem c3_eot_stops_and_seeks (n v : Nat) (junk : List Nat)
    (hlen : 8 + junk.length < 2 ^ 32) :
    parse_track ([0x4D, 0x54, 0x72, 0x6B] ++ (be32 (8 + junk.length) ++
        (0x00 :: 0x90 :: n :: v :: 0x00 :: 0xFF :: 0x2F :: 0x00 :: junk))) 0 =
      .ok (⟨[⟨0, if v = 0 then .NoteOff 0 n v else .NoteOn 0 n v⟩,
            ⟨0, .Meta .EndOfTrack⟩]⟩, 8 + (8 + junk.length)) := by
  unfold parse_track
  have hvch : validate_chunk_header ([0x4D, 0x54, 0x72, 0x6B] ++ (be32 (8 + junk.length) ++
      (0x00 :: 0x90 :: n :: v :: 0x00 :: 0xFF :: 0x2F :: 0x00 :: junk))) 0
      [0x4D, 0x54, 0x72, 0x6B] = .ok ((), 4) := by
    unfold validate_chunk_header read_exact
    rw [if_pos (by
      simp only [List.length_append, List.length_cons, List.length_nil, be32]
      omega)]
    rw [List.drop_zero,
      List.take_left' (show ([0x4D, 0x54, 0x72, 0x6B] : List Nat).length = 4 from rfl)]
    simp
  simp only [hvch]
  have hr32 := be32_read [0x4D, 0x54, 0x72, 0x6B]
    (0x00 :: 0x90 :: n :: v :: 0x00 :: 0xFF :: 0x2F :: 0x00 :: junk) (8 + junk.length) hlen
  rw [show ([0x4D, 0x54, 0x72, 0x6B] : List Nat).length = 4 from rfl] at hr32
  rw [show (4 : Nat) + 4 = 8 from rfl] at hr32
  simp only [hr32]
  rw [parse_track_go_step _ _ _ _ _ _ (by omega)]
  rw [if_pos (by omega)]
  rw [show [0x4D, 0x54, 0x72, 0x6B] ++ (be32 (8 + junk.length) ++
      (0x00 :: 0x90 :: n :: v :: 0x00 :: 0xFF :: 0x2F :: 0x00 :: junk)) =
      ([0x4D, 0x54, 0x72, 0x6B] ++ be32 (8 + junk.length)) ++
      (0x00 :: 0x90 :: n :: v :: (0x00 :: 0xFF :: 0x2F :: 0x00 :: junk)) by simp]
  have hev1 := parse_event_noteon ([0x4D, 0x54, 0x72, 0x6B] ++ be32 (8 + junk.length))
    (0x00 :: 0xFF :: 0x2F :: 0x00 :: junk) n v none
  have hplen1 : ([0x4D, 0x54, 0x72, 0x6B] ++ be32 (8 + junk.length)).length = 8 := by
    simp [be32]
  rw [hplen1] at hev1
  rw [show (8 : Nat) + 4 = 12 from rfl] at hev1
  simp only [hev1]
  rw [if_neg (by split <;> simp)]
  rw [parse_track_go_step _ _ _ _ _ _ (by omega)]
  rw [if_pos (by omega)]
  rw [show ([0x4D, 0x54, 0x72, 0x6B] ++ be32 (8 + junk.length)) ++
      (0x00 :: 0x90 :: n :: v :: (0x00 :: 0xFF :: 0x2F :: 0x00 :: junk)) =
      (([0x4D, 0x54, 0x72, 0x6B] ++ be32 (8 + junk.length)) ++ [0x00, 0x90, n, v]) ++
      (0x00 :: 0xFF :: 0x2F :: 0x00 :: junk) by simp]
  have hev2 := parse_event_eot
    (([0x4D, 0x54, 0x72, 0x6B] ++ be32 (8 + junk.length)) ++ [0x00, 0x90, n, v]) junk
    (some 0x90)
  have hplen2 : (([0x4D, 0x54, 0x72, 0x6B] ++ be32 (8 + junk.length)) ++
      [0x00, 0x90, n, v]).length = 12 := by simp [be32]
  rw [hplen2] at hev2
  rw [show (12 : Nat) + 4 = 16 from rfl] at hev2
  simp only [hev2]
  have hfinal : (if (16 : Nat) ≠ 8 + (8 + junk.length) then 8 + (8 + junk.length) else 16) =
      8 + (8 + junk.length) := by split <;> omega
  simp [hfinal]

theorem c3_witness :
    8 + ([1, 2, 3] : List Nat).length < 2 ^ 32 ∧
    parse_track [0x4D, 0x54, 0x72, 0x6B, 0x00, 0x00, 0x00, 0x0B,
        0x00, 0x90, 60, 100, 0x00, 0xFF, 0x2F, 0x00, 1, 2, 3] 0 =
      .ok (⟨[⟨0, .NoteOn 0 60 100⟩, ⟨0, .Meta .EndOfTrack⟩]⟩, 19) := by
  refine ⟨by decide, ?_⟩
  have h := c3_eot_stops_and_seeks 60 100 [1, 2, 3] (by decide)
  simpa [be32] using h

theorem parseTracks_length (data : List Nat) :
    ∀ (n pos : Nat) (ts : List MidiTrack) (p : Nat),
      parseTracks data n pos = .ok (ts, p) → ts.length = n := by
  intro n
  induction n with
  | zero =>
    intro pos ts p h
    simp only [parseTracks] at h
    obtain ⟨h1, h2⟩ := Prod.mk.injEq .. ▸ (Except.ok.inj h)
    simp [← h1]
  | succ n ih =>
    intro pos ts p h
    unfold parseTracks at h
    cases hc : parse_track data pos with
    | error e => rw [hc] at h; simp at h
    | ok r =>
      obtain ⟨t, p'⟩ := r
      simp only [hc] at h
      cases hc2 : parseTracks data n p' with
      | error e => rw [hc2] at h; simp at h
      | ok r2 =>
        obtain ⟨ts', p''⟩ := r2
        rw [hc2] at h
        simp only [Except.ok.injEq, Prod.mk.injEq] at h
        rw [← h.1]
        simp [ih p' ts' p'' hc2]

/-- C8: a successful open yields format at most 2 and exactly num_tracks
decoded tracks, in file order; a declared header length other than 6 or a
format above 2 is a Format error naming the offending value; and the first
track failure aborts the whole decode with no partial MidiFile. -/
theorem c8_open_invariants :
    (∀ (data : List Nat) (mf : MidiFile), MidiFile.openFile data = .ok mf →
      mf.header.format ≤ 2 ∧ mf.tracks.length = mf.header.num_tracks) ∧
    (∀ (data : List Nat) (hl : Nat),
      validate_chunk_header data 0 [0x4D, 0x54, 0x68, 0x64] = .ok ((), 4) →
      read_u32_be data 4 = .ok (hl, 8) → hl ≠ 6 →
      MidiFile.openFile data = .error (.Format ("Invalid header length: " ++ toString hl))) ∧
    (∀ (data : List Nat) (fmt nt td : Nat),
      validate_chunk_header data 0 [0x4D, 0x54, 0x68, 0x64] = .ok ((), 4) →
      read_u32_be data 4 = .ok (6, 8) →
      read_u16_be data 8 = .ok (fmt, 10) →
      read_u16_be data 10 = .ok (nt, 12) →
      read_u16_be data 12 = .ok (td, 14) → 2 < fmt →
      MidiFile.openFile data = .error (.Format ("Unsupported MIDI format: " ++ toString fmt))) ∧
    (∀ (data : List Nat) (fmt nt td : Nat) (e : MidiError),
      validate_chunk_header data 0 [0x4D, 0x54, 0x68, 0x64] = .ok ((), 4) →
      read_u32_be data 4 = .ok (6, 8) →
      read_u16_be data 8 = .ok (fmt, 10) →
      read_u16_be data 10 = .ok (nt, 12) →
      read_u16_be data 12 = .ok (td, 14) → fmt ≤ 2 → 0 < nt →
      parse_track data 14 = .error e →
      MidiFile.openFile data = .error e) := by
  refine ⟨?_, ?_, ?_, ?_⟩
  · intro data mf h
    unfold MidiFile.openFile at h
    cases hv : validate_chunk_header data 0 [0x4D, 0x54, 0x68, 0x64] with
    | error e => rw [hv] at h; simp at h
    | ok r0 =>
      obtain ⟨u0, p0⟩ := r0
      simp only [hv] at h
      cases h32 : read_u32_be data p0 with
      | error e => rw [h32] at h; simp at h
      | ok r1 =>
        obtain ⟨hl, p1⟩ := r1
        simp only [h32] at h
        by_cases hhl : hl ≠ 6
        · rw [if_pos hhl] at h; simp at h
        · rw [if_neg hhl] at h
          cases hf : read_u16_be data p1 with
          | error e => rw [hf] at h; simp at h
          | ok r2 =>
            obtain ⟨fmt, p2⟩ := r2
            simp only [hf] at h
            cases hn : read_u16_be data p2 with
            | error e => rw [hn] at h; simp at h
            | ok r3 =>
              obtain ⟨nt, p3⟩ := r3
              simp only [hn] at h
              cases ht : read_u16_be data p3 with
              | error e => rw [ht] at h; simp at h
              | ok r4 =>
                obtain ⟨td, p4⟩ := r4
                simp only [ht] at h
                by_cases hfmt : fmt > 2
                · rw [if_pos hfmt] at h; simp at h
                · rw [if_neg hfmt] at h
                  cases htr : parseTracks data nt p4 with
                  | error e => rw [htr] at h; simp at h
                  | ok r5 =>
                    obtain ⟨tracks, p5⟩ := r5
                    simp only [htr] at h
                    simp only [Except.ok.injEq] at h
                    rw [← h]
                    exact ⟨(by omega : fmt ≤ 2),
                      (parseTracks_length data nt p4 tracks p5 htr : tracks.length = nt)⟩
  · intro data hl h0 h1 hne
    unfold MidiFile.openFile
    simp only [h0, h1]
    rw [if_pos hne]
  · intro data fmt nt td h0 h1 h2 h3 h4 hfmt
    unfold MidiFile.openFile
    simp only [h0, h1]
    rw [if_neg (by omega)]
    simp only [h2, h3, h4]
    rw [if_pos hfmt]
  · intro data fmt nt td e h0 h1 h2 h3 h4 hfmt hnt htr
    unfold MidiFile.openFile
    simp only [h0, h1]
    rw [if_neg (by omega)]
    simp only [h2, h3, h4]
    rw [if_neg (by omega)]
    cases nt with
    | zero => omega
    | succ k =>
      simp only [parseTracks, htr]

theorem c8_witness :
    (∃ mf : MidiFile,
      MidiFile.openFile [0x4D, 0x54, 0x68, 0x64, 0x00, 0x00, 0x00, 0x06, 0x00, 0x00,
        0x00, 0x01, 0x01, 0xE0, 0x4D, 0x54, 0x72, 0x6B, 0x00, 0x00, 0x00, 0x0B,
        0x00, 0xFF, 0x51, 0x03, 0x07, 0xA1, 0x20, 0x00, 0xFF, 0x2F, 0x00] = .ok mf ∧
      mf.header.format ≤ 2 ∧ mf.tracks.length = mf.header.num_tracks) ∧
    MidiFile.openFile [0x4D, 0x54, 0x68, 0x64, 0x00, 0x00, 0x00, 0x05] =
      .error (.Format ("Invalid header length: " ++ toString 5)) ∧
    MidiFile.openFile [0x4D, 0x54, 0x68, 0x64, 0x00, 0x00, 0x00, 0x06, 0x00, 0x03,
        0x00, 0x00, 0x00, 0x00] =
      .error (.Format ("Unsupported MIDI format: " ++ toString 3)) ∧
    MidiFile.openFile [0x4D, 0x54, 0x68, 0x64, 0x00, 0x00, 0x00, 0x06, 0x00, 0x01,
        0x00, 0x01, 0x00, 0x00, 88, 88, 88, 88] =
      .error (.Format "Expected chunk type mismatch") := by
  refine ⟨?_, ?_, ?_, ?_⟩
  · have hopen : MidiFile.openFile [0x4D, 0x54, 0x68, 0x64, 0x00, 0x00, 0x00, 0x06,
        0x00, 0x00, 0x00, 0x01, 0x01, 0xE0, 0x4D, 0x54, 0x72, 0x6B, 0x00, 0x00, 0x00,
        0x0B, 0x00, 0xFF, 0x51, 0x03, 0x07, 0xA1, 0x20, 0x00, 0xFF, 0x2F, 0x00] =
        .ok ⟨⟨0, 1, 480⟩, [⟨[⟨0, .Meta (.SetTempo 500000)⟩, ⟨0, .Meta .EndOfTrack⟩]⟩]⟩ := rfl
    exact ⟨_, hopen, (c8_open_invariants.1 _ _ hopen).1, (c8_open_invariants.1 _ _ hopen).2⟩
  · exact c8_open_invariants.2.1 _ 5 rfl rfl (by decide)
  · exact c8_open_invariants.2.2.1 _ 3 0 0 rfl rfl rfl rfl rfl (by decide)
  · exact c8_open_invariants.2.2.2 _ 1 1 0 (.Format "Expected chunk type mismatch")
      rfl rfl rfl rfl rfl (by decide) (by decide) rfl
